import Mathlib

/-!
# Verification of the DataLense local statistical analysis engine

Shallow embedding of `src/services/dataAnalysisService.ts`: the descriptive
statistics engine (`calculateStats`), the missing-data detector
(`findMissingData`), the correlation finder (`findCorrelations`), the trend
and seasonality detectors (`detectTrends`, `detectSeasonality`) and the
insight synthesizer (`analyzeData`).

JavaScript numbers are modelled as exact rationals (`ℚ`); the only place the
source leaves the rationals is `Math.sqrt` inside the Pearson coefficient,
which is modelled over `ℝ` with `Real.sqrt`.
-/

namespace DataLense

/-- A cell value of a row: a number, a string, or `null`
(an absent key is modelled by `Option.none` at lookup time, matching
JavaScript `undefined`). -/
inductive Value where
  | num (q : ℚ)
  | str (s : String)
  | null
deriving DecidableEq

/-- A row (`DataItem`): a JavaScript object, i.e. an association list from
column names to cell values with the keys in insertion order. -/
abbrev Row := List (String × Value)

/-- A dataset: an ordered sequence of rows. -/
abbrev Dataset := List Row

/-- `item[key]`: `none` models JavaScript `undefined` (absent key). -/
def getCell (item : Row) (key : String) : Option Value :=
  item.lookup key

/-- Models the JavaScript `parseFloat` builtin on the fragment exercised
here: skip leading whitespace, optional sign, a run of decimal digits with an
optional fractional part, ignoring any trailing garbage; `none` models `NaN`
(no leading number).  Exponents and `Infinity` literals are not used by any
input considered. -/
def jsParseFloat (s : String) : Option ℚ :=
  let cs := s.toList.dropWhile fun c => c = ' ' ∨ c = '\t' ∨ c = '\n' ∨ c = '\r'
  let signAndRest : ℚ × List Char :=
    match cs with
    | '-' :: r => (-1, r)
    | '+' :: r => (1, r)
    | _ => (1, cs)
  let sign := signAndRest.1
  let rest := signAndRest.2
  let intPart := rest.takeWhile Char.isDigit
  let afterInt := rest.dropWhile Char.isDigit
  let fracPart :=
    match afterInt with
    | '.' :: r => r.takeWhile Char.isDigit
    | _ => []
  if intPart.isEmpty ∧ fracPart.isEmpty then none
  else
    let intVal : ℚ := intPart.foldl (fun a c => a * 10 + (c.toNat - 48 : ℕ)) 0
    let fracVal : ℚ := fracPart.foldr (fun c a => (a + (c.toNat - 48 : ℕ)) / 10) 0
    some (sign * (intVal + fracVal))

/-- The numeric coercion applied to every cell throughout the service:
`typeof item[key] === 'number' ? item[key] : parseFloat(item[key])`,
with `none` standing for `NaN` (which every caller filters out). -/
def parseNum (v : Option Value) : Option ℚ :=
  match v with
  | some (.num q) => some q
  | some (.str s) => jsParseFloat s
  | _ => none

/-- The numeric values of a column:
`data.map(...).filter(value => !isNaN(value))`. -/
def numericValuesOf (data : Dataset) (key : String) : List ℚ :=
  data.filterMap fun item => parseNum (getCell item key)

/-- The mode-finding loop of `calculateStats`: walk the (sorted) value list
keeping a frequency table, the maximal frequency seen so far, and the current
mode, replacing the mode only when a value's frequency strictly exceeds the
maximum so far. -/
def modeScanGo : List ℚ → (ℚ → ℕ) → ℕ → Option ℚ → Option ℚ
  | [], _, _, mode => mode
  | v :: rest, freq, maxFreq, mode =>
    let n := freq v + 1
    let freq' : ℚ → ℕ := fun x => if x = v then n else freq x
    if maxFreq < n then modeScanGo rest freq' n (some v)
    else modeScanGo rest freq' maxFreq mode

/-- `mode` computation of `calculateStats`, run over the sorted values. -/
def modeScan (l : List ℚ) : Option ℚ :=
  modeScanGo l (fun _ => 0) 0 none

/-- The `ColumnStatistics` record returned by `calculateStats`.
The source's `stdDev` is `Math.sqrt` of `variance`; the rational `variance`
field is stored and `stdDev` is recovered by `Stats.stdDev` below. -/
structure Stats where
  count : ℕ
  min : ℚ
  max : ℚ
  range : ℚ
  sum : ℚ
  mean : ℚ
  median : ℚ
  mode : Option ℚ
  variance : ℚ
  q1 : ℚ
  q3 : ℚ
  iqr : ℚ
  outliers : List ℚ
  hasOutliers : Bool
deriving DecidableEq

/-- `stdDev` of the source: `Math.sqrt(variance)`. -/
noncomputable def Stats.stdDev (s : Stats) : ℝ :=
  Real.sqrt (s.variance : ℝ)

/-- `calculateStats(data, key)`: statistics of the numeric values of one
column, `null` when no value parses.  `numericValues.sort((a, b) => a - b)`
is an ascending stable numeric sort, modelled by insertion sort.
`Math.floor(n * 0.25)`, `Math.floor(n * 0.75)` and `Math.floor(n / 2)` are
the natural-number divisions `n / 4`, `n * 3 / 4` and `n / 2` (the float
products are exact). -/
def calculateStats (data : Dataset) (key : String) : Option Stats :=
  let numericValues := numericValuesOf data key
  if numericValues.isEmpty then none
  else
    let sorted := numericValues.insertionSort (· ≤ ·)
    let n := sorted.length
    let sum := sorted.sum
    let mean := sum / n
    let mid := n / 2
    let median :=
      if n % 2 = 0 then (sorted.getD (mid - 1) 0 + sorted.getD mid 0) / 2
      else sorted.getD mid 0
    let mode := modeScan sorted
    let variance := ((sorted.map fun v => ((v - mean) ^ 2 : ℚ)).sum) / n
    let min := sorted.getD 0 0
    let max := sorted.getD (n - 1) 0
    let q1 := sorted.getD (n / 4) 0
    let q3 := sorted.getD (n * 3 / 4) 0
    let iqr := q3 - q1
    let lowerBound := q1 - 3 / 2 * iqr
    let upperBound := q3 + 3 / 2 * iqr
    let outliers := sorted.filter fun v => v < lowerBound ∨ v > upperBound
    some
      { count := n, min := min, max := max, range := max - min, sum := sum
        mean := mean, median := median, mode := mode, variance := variance
        q1 := q1, q3 := q3, iqr := iqr, outliers := outliers
        hasOutliers := !outliers.isEmpty }

/-- The columns of a dataset: `Object.keys(data[0] || {})`. -/
def columnsOf (data : Dataset) : List String :=
  (data.headD []).map Prod.fst

/-- The missing-cell test of `findMissingData`: `undefined`, `null`, the
empty string, or a string trimming to empty. -/
def isMissingCell (v : Option Value) : Bool :=
  match v with
  | none => true
  | some .null => true
  | some (.str s) => s = "" ∨ s.trim = ""
  | some (.num _) => false

/-- `findMissingData(data)`: per-column count of missing cells, columns with
zero missing cells omitted, in column order. -/
def findMissingData (data : Dataset) : List (String × ℕ) :=
  (columnsOf data).filterMap fun column =>
    let missing := (data.filter fun item => isMissingCell (getCell item column)).length
    if missing > 0 then some (column, missing) else none

/-- The result of `detectTrends`, discriminated on `direction`. -/
inductive TrendResult where
  | up (consistency rate : ℚ)
  | down (consistency rate : ℚ)
  | fluct (upPercent downPercent : ℚ)
deriving DecidableEq

/-- `detectTrends(data, column)`: walk consecutive pairs of the parsed
numeric sequence counting strict increases and decreases, then classify by
the >60% thresholds; `null` when the dataset or the parsed sequence has
fewer than 5 elements or when there is no strict change at all. -/
def detectTrends (data : Dataset) (column : String) : Option TrendResult :=
  if data.length < 5 then none
  else
    let values := numericValuesOf data column
    if values.length < 5 then none
    else
      let pairs := values.zip values.tail
      let increases := pairs.countP fun p => p.2 > p.1
      let decreases := pairs.countP fun p => p.2 < p.1
      let totalChanges := increases + decreases
      if totalChanges = 0 then none
      else
        let increasePercent := (increases : ℚ) / totalChanges * 100
        let decreasePercent := (decreases : ℚ) / totalChanges * 100
        if increasePercent > 60 then
          some (.up increasePercent
            ((values.getD (values.length - 1) 0 / values.getD 0 0 - 1) * 100))
        else if decreasePercent > 60 then
          some (.down decreasePercent
            ((1 - values.getD (values.length - 1) 0 / values.getD 0 0) * 100))
        else
          some (.fluct increasePercent decreasePercent)

/-- A direction of one consecutive pair: `'up'`, `'down'` or `'same'`. -/
inductive Dir where
  | up
  | down
  | same
deriving DecidableEq

/-- The direction sequence built by `detectSeasonality`. -/
def directionsOf (values : List ℚ) : List Dir :=
  (values.zip values.tail).map fun p =>
    if p.2 > p.1 then Dir.up else if p.2 < p.1 then Dir.down else Dir.same

/-- The inner match count of `detectSeasonality` for one candidate period:
positions `i ≤ directions.length - 2*patternLength` where the window of
length `patternLength` at `i` equals the one at `i + patternLength`
elementwise. -/
def patternMatchCount (directions : List Dir) (patternLength : ℕ) : ℕ :=
  (List.range (directions.length - 2 * patternLength + 1)).countP fun i =>
    decide (∀ j < patternLength,
      directions.getD (i + j) Dir.same = directions.getD (i + patternLength + j) Dir.same)

/-- The confidence `detectSeasonality` assigns to one candidate period:
`patternMatches / (floor(directions.length / patternLength) - 1)`. -/
def patternConfidenceOf (directions : List Dir) (patternLength : ℕ) : ℚ :=
  (patternMatchCount directions patternLength : ℚ)
    / ((directions.length / patternLength - 1 : ℕ) : ℚ)

/-- The result of `detectSeasonality`. -/
structure SeasonalityResult where
  patternLength : ℕ
  confidence : ℚ
deriving DecidableEq

/-- One iteration of the candidate-period loop of `detectSeasonality`:
skip the period when `directions.length < patternLength * 2`, otherwise
replace the best candidate only when its confidence is strictly greater. -/
def seasonalityStep (directions : List Dir) (acc : ℕ × ℚ) (patternLength : ℕ) : ℕ × ℚ :=
  if directions.length < patternLength * 2 then acc
  else
    let confidence := patternConfidenceOf directions patternLength
    if confidence > acc.2 then (patternLength, confidence) else acc

/-- The scan of `detectSeasonality` over candidate periods 2, 3, 4, starting
from `maxPatternLength = 0`, `patternConfidence = 0`. -/
def seasonalityScan (directions : List Dir) : ℕ × ℚ :=
  [2, 3, 4].foldl (seasonalityStep directions) (0, 0)

/-- `detectSeasonality(data, column)`: direction-sequence pattern search,
reported only when the best confidence exceeds 0.3 and at least 10 parsed
values exist. -/
def detectSeasonality (data : Dataset) (column : String) : Option SeasonalityResult :=
  if data.length < 10 then none
  else
    let values := numericValuesOf data column
    if values.length < 10 then none
    else
      let directions := directionsOf values
      let best := seasonalityScan directions
      if best.2 > 3 / 10 then some ⟨best.1, best.2⟩ else none

/-- A `CorrelationPair`. -/
structure CorrPair where
  col1 : String
  col2 : String
  coefficient : ℝ

/-- The candidate columns of `findCorrelations`:
`stats !== null && stats.count > 0`. -/
def corrNumericColumns (data : Dataset) : List String :=
  (columnsOf data).filter fun col =>
    match calculateStats data col with
    | some stats => decide (0 < stats.count)
    | none => false

/-- The index pairs `(i, j)` with `i < j` of the double loop of
`findCorrelations`, in loop order. -/
def columnPairs : List String → List (String × String)
  | [] => []
  | c :: rest => (rest.map fun c2 => (c, c2)) ++ columnPairs rest

/-- The mean-centered sums of the correlation loop:
`(Σ dx·dy, Σ dx², Σ dy²)` with `dx = values1[k] - mean1`,
`dy = values2[k] - mean2` and `n = values1.length` (the loop runs under the
equal-length guard, so pairing by position is pairing by `k`). -/
def corrSums (data : Dataset) (col1 col2 : String) : ℚ × ℚ × ℚ :=
  let values1 := numericValuesOf data col1
  let values2 := numericValuesOf data col2
  let n := values1.length
  let mean1 := values1.sum / n
  let mean2 := values2.sum / n
  let pairs := values1.zip values2
  ((pairs.map fun p => (p.1 - mean1) * (p.2 - mean2)).sum,
   (pairs.map fun p => ((p.1 - mean1) ^ 2 : ℚ)).sum,
   (pairs.map fun p => ((p.2 - mean2) ^ 2 : ℚ)).sum)

/-- `coefficient = numerator / (Math.sqrt(denom1) * Math.sqrt(denom2))`. -/
noncomputable def corrCoefficient (data : Dataset) (col1 col2 : String) : ℝ :=
  let s := corrSums data col1 col2
  (s.1 : ℝ) / (Real.sqrt (s.2.1 : ℝ) * Real.sqrt (s.2.2 : ℝ))

open Classical in
/-- `findCorrelations(data)`: for every pair of candidate columns whose
filtered value sequences have equal length `> 1`, keep the Pearson pair when
`!isNaN(coefficient) && Math.abs(coefficient) > 0.5`, then sort descending
by absolute coefficient (a stable sort, modelled by insertion sort).  In the
real-valued model the JavaScript `NaN` (a `0/0` from a zero variance)
denotes `0`, which the magnitude test rejects exactly as the `isNaN` test
does. -/
noncomputable def findCorrelations (data : Dataset) : List CorrPair :=
  let numericColumns := corrNumericColumns data
  let correlations := (columnPairs numericColumns).filterMap fun pc =>
    let values1 := numericValuesOf data pc.1
    let values2 := numericValuesOf data pc.2
    if values1.length = values2.length ∧ 1 < values1.length then
      let coefficient := corrCoefficient data pc.1 pc.2
      if 1 / 2 < |coefficient| then some ⟨pc.1, pc.2, coefficient⟩ else none
    else none
  correlations.insertionSort fun p q => |q.coefficient| ≤ |p.coefficient|

/-- One generated insight, tagged by category and carrying the data the
corresponding template interpolates. -/
inductive Insight where
  | extremes (column : String) (max mean : ℚ)
  | trendUp (column : String) (consistency rate : ℚ)
  | trendDown (column : String) (consistency rate : ℚ)
  | trendFluct (column : String) (upPercent downPercent : ℚ)
  | seasonality (column : String) (patternLength : ℕ) (confidence : ℚ)
  | missingSome (details : List (String × ℕ)) (significant : Bool)
  | missingNone (columns rows : ℕ)
  | outliersSome (column : String) (outlierCount : ℕ)
  | outliersNone
  | correlationTop (col1 col2 : String) (coefficient : ℝ)
  | correlationNone

/-- The `columnStats`/`numericColumns` pair built by the `forEach` at the top
of `analyzeData`, as an association list in column order. -/
def numericColumnStats (data : Dataset) : List (String × Stats) :=
  (columnsOf data).filterMap fun column =>
    (calculateStats data column).map fun stats => (column, stats)

/-- Step 1 of `analyzeData`: the highest-value insight, on the numeric
column with the highest `max` (a `reduce` seeded with the first column). -/
def extremesInsights (data : Dataset) : List Insight :=
  match numericColumnStats data with
  | [] => []
  | p0 :: _ =>
    let best := (numericColumnStats data).foldl
      (fun highest p => if p.2.max > highest.2.max then p else highest) p0
    [.extremes best.1 best.2.max best.2.mean]

/-- Step 2 of `analyzeData`: the trend insight on the first numeric column. -/
def trendInsights (data : Dataset) : List Insight :=
  match numericColumnStats data with
  | [] => []
  | (c0, _) :: _ =>
    match detectTrends data c0 with
    | some (.up consistency rate) => [.trendUp c0 consistency rate]
    | some (.down consistency rate) => [.trendDown c0 consistency rate]
    | some (.fluct upP downP) => [.trendFluct c0 upP downP]
    | none => []

/-- Step 2 of `analyzeData`, continued: the seasonality insight on the first
numeric column. -/
def seasonalityInsights (data : Dataset) : List Insight :=
  match numericColumnStats data with
  | [] => []
  | (c0, _) :: _ =>
    match detectSeasonality data c0 with
    | some r => [.seasonality c0 r.patternLength r.confidence]
    | none => []

/-- Step 3 of `analyzeData`: the missing-data insight, emitted on every
dataset (a congratulatory one when nothing is missing). -/
def missingInsights (data : Dataset) : List Insight :=
  let missingData := findMissingData data
  if missingData.isEmpty then [.missingNone (columnsOf data).length data.length]
  else
    [.missingSome missingData
      (missingData.any fun p => decide ((p.2 : ℚ) / data.length > 1 / 5))]

/-- Step 4 of `analyzeData`: the outlier insight, on the numeric column with
the most outliers, or the no-outlier insight when numeric columns exist. -/
def outlierInsights (data : Dataset) : List Insight :=
  let ncs := numericColumnStats data
  let outlierColumns := ncs.filter fun p => p.2.hasOutliers
  match outlierColumns with
  | [] => if ncs.isEmpty then [] else [.outliersNone]
  | o0 :: _ =>
    let best := outlierColumns.foldl
      (fun most p => if p.2.outliers.length > most.2.outliers.length then p else most) o0
    [.outliersSome best.1 best.2.outliers.length]

/-- Step 5 of `analyzeData`: the strongest-correlation insight, or the
no-correlation insight when at least two numeric columns exist. -/
noncomputable def correlationInsights (data : Dataset) : List Insight :=
  match findCorrelations data with
  | p :: _ => [.correlationTop p.col1 p.col2 p.coefficient]
  | [] => if 1 < (numericColumnStats data).length then [.correlationNone] else []

/-- The full insight sequence of `analyzeData`, in generation order. -/
noncomputable def allInsights (data : Dataset) : List Insight :=
  extremesInsights data ++ trendInsights data ++ seasonalityInsights data ++
    missingInsights data ++ outlierInsights data ++ correlationInsights data

/-- `analyzeData(data)`: throws on an empty dataset, otherwise returns the
first 5 generated insights. -/
noncomputable def analyzeData (data : Dataset) : Except String (List Insight) :=
  if data.isEmpty then .error "No data available for analysis"
  else .ok ((allInsights data).take 5)

/-! ## Concrete datasets used by witnesses and counterexamples -/

/-- The spec's scenario dataset
`[{x:1,y:2},{x:2,y:4},{x:3,y:6},{x:4,y:8},{x:5,y:10}]`. -/
def D6w : Dataset :=
  [[("x", .num 1), ("y", .num 2)],
   [("x", .num 2), ("y", .num 4)],
   [("x", .num 3), ("y", .num 6)],
   [("x", .num 4), ("y", .num 8)],
   [("x", .num 5), ("y", .num 10)]]

/-! ## Claims -/

/-- **C6.** For every dataset and column, `detectTrends` returns `null`
exactly when the dataset or the parsed numeric sequence has fewer than 5
elements or there is no strict consecutive change; otherwise it returns
`upward` with `consistency = increases/totalChanges*100` and
`rate = (last/first - 1)*100` when more than 60% of the strict changes are
increases, `downward` with `rate = (1 - last/first)*100` when more than 60%
are decreases, and `fluctuating` with both percentages otherwise. -/
theorem detectTrends_spec (d : Dataset) (c : String) (vals : List ℚ) (inc dec : ℕ)
    (hv : vals = numericValuesOf d c)
    (hi : inc = (vals.zip vals.tail).countP fun p => p.2 > p.1)
    (hd : dec = (vals.zip vals.tail).countP fun p => p.2 < p.1) :
    (detectTrends d c = none ↔ d.length < 5 ∨ vals.length < 5 ∨ inc + dec = 0) ∧
    (5 ≤ d.length → 5 ≤ vals.length → 0 < inc + dec →
      ((60 < (inc : ℚ) / ((inc + dec : ℕ) : ℚ) * 100 →
        detectTrends d c = some (.up ((inc : ℚ) / ((inc + dec : ℕ) : ℚ) * 100)
          ((vals.getD (vals.length - 1) 0 / vals.getD 0 0 - 1) * 100))) ∧
       ((inc : ℚ) / ((inc + dec : ℕ) : ℚ) * 100 ≤ 60 →
          60 < (dec : ℚ) / ((inc + dec : ℕ) : ℚ) * 100 →
        detectTrends d c = some (.down ((dec : ℚ) / ((inc + dec : ℕ) : ℚ) * 100)
          ((1 - vals.getD (vals.length - 1) 0 / vals.getD 0 0) * 100))) ∧
       ((inc : ℚ) / ((inc + dec : ℕ) : ℚ) * 100 ≤ 60 →
          (dec : ℚ) / ((inc + dec : ℕ) : ℚ) * 100 ≤ 60 →
        detectTrends d c = some (.fluct ((inc : ℚ) / ((inc + dec : ℕ) : ℚ) * 100)
          ((dec : ℚ) / ((inc + dec : ℕ) : ℚ) * 100))))) := by
  subst hv; subst hi; subst hd
  simp only [detectTrends]
  split_ifs with h1 h2 h3 h4 h5
  · exact ⟨by simp [h1], fun hA => absurd h1 (by omega)⟩
  · exact ⟨by simp [h2], fun _ hB => absurd h2 (by omega)⟩
  · exact ⟨by simp [h3], fun _ _ hC => absurd h3 (by omega)⟩
  · refine ⟨by simp [h1, h2, h3], fun _ _ _ => ?_⟩
    exact ⟨fun _ => rfl,
      fun hle _ => absurd h4 (not_lt.mpr hle),
      fun hle _ => absurd h4 (not_lt.mpr hle)⟩
  · refine ⟨by simp [h1, h2, h3], fun _ _ _ => ?_⟩
    exact ⟨fun hgt => absurd hgt h4,
      fun _ _ => rfl,
      fun _ hle => absurd h5 (not_lt.mpr hle)⟩
  · refine ⟨by simp [h1, h2, h3], fun _ _ _ => ?_⟩
    exact ⟨fun hgt => absurd hgt h4,
      fun _ hgt => absurd hgt h5,
      fun _ _ => rfl⟩

/-- Witness for C6: the spec's scenario dataset gives an upward trend on
`x` with 100% consistency (and growth rate `(5/1 - 1)*100 = 400`). -/
theorem detectTrends_spec_witness : detectTrends D6w "x" = some (.up 100 400) := by
  have h := detectTrends_spec D6w "x" [1, 2, 3, 4, 5] 4 0
    (by decide) (by decide) (by decide)
  have h' := (h.2 (by decide) (by decide) (by decide)).1 (by norm_num)
  rw [h']
  norm_num [List.getD_cons_succ, List.getD_cons_zero]

/-- A 5-row dataset whose `x` column is `[0, 1, 2, 3, 4]`: the first parsed
value is `0`, yet the upward-trend branch fires. -/
def D5bug : Dataset :=
  [[("x", .num 0)], [("x", .num 1)], [("x", .num 2)], [("x", .num 3)], [("x", .num 4)]]

/-- **C5 (code bug).** On `D5bug` the upward-trend branch of `detectTrends`
is taken while the first parsed value — the denominator of the growth-rate
division `values[values.length-1] / values[0]` — is `0`.  In this exact
rational model `4 / 0 = 0`, giving the rate `(0 - 1) * 100 = -100`; in
JavaScript `4 / 0` is `Infinity`, so the insight string interpolates
`Infinity`: the trend-rate division is not guarded by a zero-denominator
check, contradicting the claim. -/
theorem detectTrends_rate_denominator_unguarded :
    (numericValuesOf D5bug "x").getD 0 0 = 0 ∧
    detectTrends D5bug "x" = some (.up 100 (-100)) := by
  have hv : numericValuesOf D5bug "x" = [0, 1, 2, 3, 4] := by decide
  refine ⟨by rw [hv]; decide, ?_⟩
  have hlen : D5bug.length = 5 := by decide
  have hc1 : (([0, 1, 2, 3, 4] : List ℚ).zip ([0, 1, 2, 3, 4] : List ℚ).tail).countP
      (fun p => p.2 > p.1) = 4 := by decide
  have hc2 : (([0, 1, 2, 3, 4] : List ℚ).zip ([0, 1, 2, 3, 4] : List ℚ).tail).countP
      (fun p => p.2 < p.1) = 0 := by decide
  simp only [detectTrends, hv, hc1, hc2, hlen]
  norm_num [List.getD_cons_succ, List.getD_cons_zero]

/-! ### Lemmas on the seasonality scan -/

lemma seasonalityStep_self_or (directions : List Dir) (acc : ℕ × ℚ) (p : ℕ) :
    seasonalityStep directions acc p = acc ∨
      (p * 2 ≤ directions.length ∧
        seasonalityStep directions acc p = (p, patternConfidenceOf directions p) ∧
        acc.2 < patternConfidenceOf directions p) := by
  simp only [seasonalityStep]
  split_ifs with h1 h2
  · exact Or.inl rfl
  · exact Or.inr ⟨by omega, rfl, h2⟩
  · exact Or.inl rfl

lemma seasonalityStep_snd_mono (directions : List Dir) (acc : ℕ × ℚ) (p : ℕ) :
    acc.2 ≤ (seasonalityStep directions acc p).2 := by
  simp only [seasonalityStep]
  split_ifs with h1 h2
  · exact le_refl _
  · exact le_of_lt h2
  · exact le_refl _

lemma seasonalityStep_conf_le (directions : List Dir) (acc : ℕ × ℚ) (p : ℕ)
    (h : p * 2 ≤ directions.length) :
    patternConfidenceOf directions p ≤ (seasonalityStep directions acc p).2 := by
  simp only [seasonalityStep]
  split_ifs with h1 h2
  · omega
  · exact le_refl _
  · exact le_of_not_lt h2

lemma seasonalityScan_eq (directions : List Dir) :
    seasonalityScan directions =
      seasonalityStep directions
        (seasonalityStep directions (seasonalityStep directions (0, 0) 2) 3) 4 := rfl

/-- The scan returns `(0, 0)` untouched or one of the candidate periods
together with its own confidence. -/
lemma seasonalityScan_self_or (directions : List Dir) :
    seasonalityScan directions = (0, 0) ∨
      (((seasonalityScan directions).1 = 2 ∨ (seasonalityScan directions).1 = 3 ∨
          (seasonalityScan directions).1 = 4) ∧
        (seasonalityScan directions).1 * 2 ≤ directions.length ∧
        (seasonalityScan directions).2 =
          patternConfidenceOf directions (seasonalityScan directions).1) := by
  rw [seasonalityScan_eq]
  rcases seasonalityStep_self_or directions
      (seasonalityStep directions (seasonalityStep directions (0, 0) 2) 3) 4 with h4 | h4
  · rw [h4]
    rcases seasonalityStep_self_or directions (seasonalityStep directions (0, 0) 2) 3 with
      h3 | h3
    · rw [h3]
      rcases seasonalityStep_self_or directions (0, 0) 2 with h2 | h2
      · exact Or.inl h2
      · rw [h2.2.1]
        exact Or.inr ⟨Or.inl rfl, h2.1, rfl⟩
    · rw [h3.2.1]
      exact Or.inr ⟨Or.inr (Or.inl rfl), h3.1, rfl⟩
  · rw [h4.2.1]
    exact Or.inr ⟨Or.inr (Or.inr rfl), h4.1, rfl⟩

/-- Every valid candidate period's confidence is at most the scan's best
confidence, and a period matching the best confidence is at least the
returned period (the best candidate is replaced only on a strictly greater
confidence, so on ties the smallest period wins). -/
lemma seasonalityScan_least (directions : List Dir) (p : ℕ)
    (hp : p = 2 ∨ p = 3 ∨ p = 4) (hlen : p * 2 ≤ directions.length) :
    patternConfidenceOf directions p ≤ (seasonalityScan directions).2 ∧
      (patternConfidenceOf directions p = (seasonalityScan directions).2 →
        (seasonalityScan directions).1 ≤ p) := by
  have hs1 : seasonalityStep directions (0, 0) 2 = seasonalityStep directions (0, 0) 2 := rfl
  generalize hs1' : seasonalityStep directions (0, 0) 2 = s1 at *
  generalize hs2' : seasonalityStep directions s1 3 = s2 at *
  generalize hs3' : seasonalityStep directions s2 4 = s3 at *
  have hscan : seasonalityScan directions = s3 := by
    rw [seasonalityScan_eq, hs1', hs2', hs3']
  have m12 : s1.2 ≤ s2.2 := hs2' ▸ seasonalityStep_snd_mono directions s1 3
  have m23 : s2.2 ≤ s3.2 := hs3' ▸ seasonalityStep_snd_mono directions s2 4
  have hfst1 : s1.1 = 0 ∨ s1.1 = 2 := by
    rcases hs1' ▸ seasonalityStep_self_or directions (0, 0) 2 with h | h
    · rw [h]; exact Or.inl rfl
    · rw [h.2.1]; exact Or.inr rfl
  have h4or := hs3' ▸ seasonalityStep_self_or directions s2 4
  have h3or := hs2' ▸ seasonalityStep_self_or directions s1 3
  rw [hscan]
  rcases hp with rfl | rfl | rfl
  · have hle : patternConfidenceOf directions 2 ≤ s1.2 :=
      hs1' ▸ seasonalityStep_conf_le directions (0, 0) 2 hlen
    refine ⟨le_trans hle (le_trans m12 m23), fun heq => ?_⟩
    rcases h4or with h4 | h4
    · rcases h3or with h3 | h3
      · have e31 : s3.1 = s1.1 := by rw [h4, h3]
        rw [e31]; omega
      · exfalso
        have h31 : s1.2 < patternConfidenceOf directions 3 := h3.2.2
        have e32 : s3.2 = patternConfidenceOf directions 3 := by rw [h4, h3.2.1]
        linarith [heq, hle, h31, e32]
    · exfalso
      have h41 : s2.2 < patternConfidenceOf directions 4 := h4.2.2
      have e42 : s3.2 = patternConfidenceOf directions 4 := by rw [h4.2.1]
      linarith [heq, hle, m12, h41, e42]
  · have hle : patternConfidenceOf directions 3 ≤ s2.2 :=
      hs2' ▸ seasonalityStep_conf_le directions s1 3 hlen
    refine ⟨le_trans hle m23, fun heq => ?_⟩
    rcases h4or with h4 | h4
    · rcases h3or with h3 | h3
      · have e31 : s3.1 = s1.1 := by rw [h4, h3]
        rw [e31]; omega
      · have e33 : s3.1 = 3 := by rw [h4, h3.2.1]
        rw [e33]
    · exfalso
      have h41 : s2.2 < patternConfidenceOf directions 4 := h4.2.2
      have e42 : s3.2 = patternConfidenceOf directions 4 := by rw [h4.2.1]
      linarith [heq, hle, h41, e42]
  · refine ⟨hs3' ▸ seasonalityStep_conf_le directions s2 4 hlen, fun _ => ?_⟩
    rcases h4or with h4 | h4
    · rcases h3or with h3 | h3
      · have e31 : s3.1 = s1.1 := by rw [h4, h3]
        omega
      · have e33 : s3.1 = 3 := by rw [h4, h3.2.1]
        omega
    · have e34 : s3.1 = 4 := by rw [h4.2.1]
      omega

/-- **C10.** When `detectSeasonality` reports a pattern, its confidence
exceeds 0.3, its period is one of the candidates 2, 3, 4 with that period's
own confidence, every valid candidate period has confidence at most the
reported one, and any candidate achieving the reported (maximal) confidence
is at least the reported period — so on ties the smallest period is
returned, because the best candidate is replaced only on strictly greater
confidence during the ascending scan. -/
theorem detectSeasonality_least_period (d : Dataset) (c : String) (r : SeasonalityResult)
    (h : detectSeasonality d c = some r) :
    3 / 10 < r.confidence ∧
    ((r.patternLength = 2 ∨ r.patternLength = 3 ∨ r.patternLength = 4) ∧
      r.patternLength * 2 ≤ (directionsOf (numericValuesOf d c)).length ∧
      r.confidence =
        patternConfidenceOf (directionsOf (numericValuesOf d c)) r.patternLength) ∧
    ∀ p, (p = 2 ∨ p = 3 ∨ p = 4) →
      p * 2 ≤ (directionsOf (numericValuesOf d c)).length →
      patternConfidenceOf (directionsOf (numericValuesOf d c)) p ≤ r.confidence ∧
      (patternConfidenceOf (directionsOf (numericValuesOf d c)) p = r.confidence →
        r.patternLength ≤ p) := by
  simp only [detectSeasonality] at h
  split_ifs at h with h1 h2 h3
  rcases Option.some_inj.mp h with rfl
  set dirs := directionsOf (numericValuesOf d c) with hdirs
  refine ⟨h3, ?_, ?_⟩
  · rcases seasonalityScan_self_or dirs with h0 | hprops
    · rw [h0] at h3
      norm_num at h3
    · exact hprops
  · intro p hp hlen
    exact seasonalityScan_least dirs p hp hlen

/-- A 10-row dataset whose `v` column alternates `1, 2, 1, 2, …`: candidate
periods 2 and 4 both reach the maximal confidence 2. -/
def D10w : Dataset :=
  [[("v", .num 1)], [("v", .num 2)], [("v", .num 1)], [("v", .num 2)], [("v", .num 1)],
   [("v", .num 2)], [("v", .num 1)], [("v", .num 2)], [("v", .num 1)], [("v", .num 2)]]

/-- Witness for C10: on `D10w` periods 2 and 4 tie at confidence 2 and the
smaller period 2 is returned. -/
theorem detectSeasonality_least_period_witness :
    detectSeasonality D10w "v" = some ⟨2, 2⟩ ∧
    patternConfidenceOf (directionsOf (numericValuesOf D10w "v")) 4 = 2 ∧
    (⟨2, 2⟩ : SeasonalityResult).patternLength ≤ 4 := by
  have hdir : directionsOf (numericValuesOf D10w "v") =
      [.up, .down, .up, .down, .up, .down, .up, .down, .up] := by decide
  have hm2 : patternMatchCount [Dir.up, .down, .up, .down, .up, .down, .up, .down, .up] 2
      = 6 := by decide
  have hm3 : patternMatchCount [Dir.up, .down, .up, .down, .up, .down, .up, .down, .up] 3
      = 0 := by decide
  have hm4 : patternMatchCount [Dir.up, .down, .up, .down, .up, .down, .up, .down, .up] 4
      = 2 := by decide
  have hc2 : patternConfidenceOf [Dir.up, .down, .up, .down, .up, .down, .up, .down, .up] 2
      = 2 := by
    simp only [patternConfidenceOf, hm2]
    norm_num
  have hc3 : patternConfidenceOf [Dir.up, .down, .up, .down, .up, .down, .up, .down, .up] 3
      = 0 := by
    simp only [patternConfidenceOf, hm3]
    norm_num
  have hc4 : patternConfidenceOf [Dir.up, .down, .up, .down, .up, .down, .up, .down, .up] 4
      = 2 := by
    simp only [patternConfidenceOf, hm4]
    norm_num
  have e1 : seasonalityStep [Dir.up, .down, .up, .down, .up, .down, .up, .down, .up] (0, 0) 2
      = (2, 2) := by
    simp only [seasonalityStep, hc2]
    norm_num
  have e2 : seasonalityStep [Dir.up, .down, .up, .down, .up, .down, .up, .down, .up] (2, 2) 3
      = (2, 2) := by
    simp only [seasonalityStep, hc3]
    norm_num
  have e3 : seasonalityStep [Dir.up, .down, .up, .down, .up, .down, .up, .down, .up] (2, 2) 4
      = (2, 2) := by
    simp only [seasonalityStep, hc4]
    norm_num
  have hscan : seasonalityScan [Dir.up, .down, .up, .down, .up, .down, .up, .down, .up]
      = (2, 2) := by
    rw [seasonalityScan_eq, e1, e2, e3]
  have hlD : D10w.length = 10 := rfl
  have hlv : (numericValuesOf D10w "v").length = 10 := by decide
  have hres : detectSeasonality D10w "v" = some ⟨2, 2⟩ := by
    simp only [detectSeasonality, hdir, hscan, hlD, hlv]
    norm_num
  refine ⟨hres, by rw [hdir]; exact hc4, ?_⟩
  have hmax := (detectSeasonality_least_period D10w "v" ⟨2, 2⟩ hres).2.2 4
    (by norm_num) (by rw [hdir]; decide)
  exact hmax.2 (by rw [hdir]; exact hc4)

/-! ### Column classification (C4) -/

lemma calculateStats_isSome_iff (d : Dataset) (k : String) :
    (calculateStats d k).isSome = true ↔ numericValuesOf d k ≠ [] := by
  by_cases h : (numericValuesOf d k).isEmpty = true
  · have hnil : numericValuesOf d k = [] := List.isEmpty_iff.mp h
    simp [calculateStats, h, hnil]
  · have hne : numericValuesOf d k ≠ [] := fun hnil => h (by rw [hnil]; rfl)
    simp [calculateStats, h, hne]

lemma numericValuesOf_ne_nil_iff (d : Dataset) (k : String) :
    numericValuesOf d k ≠ [] ↔ ∃ row ∈ d, (parseNum (getCell row k)).isSome = true := by
  unfold numericValuesOf
  rw [Ne, List.filterMap_eq_nil_iff]
  push_neg
  constructor
  · rintro ⟨row, hrow, hne⟩
    exact ⟨row, hrow, Option.isSome_iff_ne_none.mpr hne⟩
  · rintro ⟨row, hrow, hsome⟩
    exact ⟨row, hrow, Option.isSome_iff_ne_none.mp hsome⟩

/-- **C4 (amended).** A column is classified as numeric (i.e. it has an
entry in the `columnStats`/`numericColumns` table of `analyzeData`) exactly
when it is one of the first row's keys and **at least one** row's value for
it is a number or a string parseable as a number — not only the first
row's.  (`calculateStats` filters over all rows and returns `null` only
when no value at all parses.) -/
theorem numericColumns_iff (d : Dataset) (c : String) :
    (∃ s, (c, s) ∈ numericColumnStats d) ↔
      (c ∈ columnsOf d ∧ ∃ row ∈ d, (parseNum (getCell row c)).isSome = true) := by
  unfold numericColumnStats
  constructor
  · rintro ⟨s, hs⟩
    rw [List.mem_filterMap] at hs
    obtain ⟨col, hcol, hmap⟩ := hs
    rcases hopt : calculateStats d col with _ | st
    · rw [hopt] at hmap
      cases hmap
    · rw [hopt] at hmap
      simp only [Option.map_some', Option.some_inj, Prod.mk.injEq] at hmap
      obtain ⟨rfl, rfl⟩ := hmap
      refine ⟨hcol, ?_⟩
      rw [← numericValuesOf_ne_nil_iff, ← calculateStats_isSome_iff]
      rw [hopt]
      rfl
  · rintro ⟨hc, hrow⟩
    have hne : numericValuesOf d c ≠ [] := (numericValuesOf_ne_nil_iff d c).mpr hrow
    have hsome : (calculateStats d c).isSome = true := (calculateStats_isSome_iff d c).mpr hne
    obtain ⟨s, hs⟩ := Option.isSome_iff_exists.mp hsome
    refine ⟨s, ?_⟩
    rw [List.mem_filterMap]
    exact ⟨c, hc, by rw [hs]; rfl⟩

/-- A two-row dataset whose single column `a` holds `""` in the first row
and `"5"` in the second. -/
def D4c : Dataset := [[("a", .str "")], [("a", .str "5")]]

/-- Counterexample for C4 as stated: on `D4c` the first row's value for
column `a` is blank (unparseable), yet `a` **is** classified as numeric,
because `calculateStats` looks at all rows, not only the first. -/
theorem first_row_classification_counterexample :
    (∃ s, ("a", s) ∈ numericColumnStats D4c) ∧
    parseNum (getCell (D4c.headD []) "a") = none := by
  refine ⟨?_, by decide⟩
  have hsome : (calculateStats D4c "a").isSome = true := by decide
  obtain ⟨s, hs⟩ := Option.isSome_iff_exists.mp hsome
  refine ⟨s, ?_⟩
  unfold numericColumnStats
  rw [List.mem_filterMap]
  exact ⟨"a", by decide, by rw [hs]; rfl⟩

/-- Witness for the amended C4: column `a` of `D4c` is classified numeric
thanks to its second row. -/
theorem numericColumns_iff_witness : ∃ s, ("a", s) ∈ numericColumnStats D4c := by
  apply (numericColumns_iff D4c "a").mpr
  exact ⟨by decide, [("a", .str "5")], by decide, by decide⟩

/-! ### Shape of the insight segments -/

/-- Whether an insight is the missing-data one (step 3). -/
def Insight.isMissing : Insight → Bool
  | .missingSome _ _ => true
  | .missingNone _ _ => true
  | _ => false

lemma missingInsights_form (d : Dataset) :
    ∃ m, missingInsights d = [m] ∧ m.isMissing = true := by
  simp only [missingInsights]
  split_ifs with h
  · exact ⟨_, rfl, rfl⟩
  · exact ⟨_, rfl, rfl⟩

lemma extremesInsights_length (d : Dataset) : (extremesInsights d).length ≤ 1 := by
  rcases hm : numericColumnStats d with _ | ⟨p0, rest⟩ <;>
    simp [extremesInsights, hm]

lemma trendInsights_length (d : Dataset) : (trendInsights d).length ≤ 1 := by
  rcases hm : numericColumnStats d with _ | ⟨⟨c0, s0⟩, rest⟩
  · simp [trendInsights, hm]
  · rcases ht : detectTrends d c0 with _ | r
    · simp [trendInsights, hm, ht]
    · rcases r <;> simp [trendInsights, hm, ht]

lemma seasonalityInsights_length (d : Dataset) : (seasonalityInsights d).length ≤ 1 := by
  rcases hm : numericColumnStats d with _ | ⟨⟨c0, s0⟩, rest⟩
  · simp [seasonalityInsights, hm]
  · rcases ht : detectSeasonality d c0 with _ | r <;>
      simp [seasonalityInsights, hm, ht]

lemma missingInsights_length (d : Dataset) : (missingInsights d).length = 1 := by
  obtain ⟨m, hm, _⟩ := missingInsights_form d
  rw [hm]
  rfl

lemma outlierInsights_length (d : Dataset) : (outlierInsights d).length ≤ 1 := by
  simp only [outlierInsights]
  rcases hf : (numericColumnStats d).filter (fun p => p.2.hasOutliers) with _ | ⟨o0, rest⟩
  · rw [hf]
    split_ifs <;> simp
  · rw [hf]
    simp

lemma correlationInsights_length (d : Dataset) : (correlationInsights d).length ≤ 1 := by
  simp only [correlationInsights]
  rcases hf : findCorrelations d with _ | ⟨p, rest⟩
  · split_ifs <;> simp
  · simp

/-- **C2 (amended).** `analyzeData` raises the analysis-failure signal
exactly when the dataset is empty (it does **not** raise on a non-empty
dataset with zero columns); on every non-empty dataset — zero columns
included — it returns at least one string, because the missing-data insight
always fires. -/
theorem analyzeData_error_iff (d : Dataset) :
    ((∃ e, analyzeData d = .error e) ↔ d = []) ∧
    (d ≠ [] → ∃ l, analyzeData d = .ok l ∧ 1 ≤ l.length ∧
      ∃ i ∈ l, i.isMissing = true) := by
  constructor
  · constructor
    · rintro ⟨e, he⟩
      simp only [analyzeData] at he
      split_ifs at he with h
      exact List.isEmpty_iff.mp h
    · rintro rfl
      exact ⟨_, rfl⟩
  · intro hne
    have hok : analyzeData d = .ok ((allInsights d).take 5) := by
      have hne' : ¬(d.isEmpty = true) := by
        rw [List.isEmpty_iff]
        exact hne
      simp only [analyzeData, if_neg hne']
    obtain ⟨m, hm, hmiss⟩ := missingInsights_form d
    have hsplit : allInsights d =
        (extremesInsights d ++ trendInsights d ++ seasonalityInsights d) ++
          (m :: (outlierInsights d ++ correlationInsights d)) := by
      rw [allInsights, hm]
      simp [List.append_assoc]
    have hpre : (extremesInsights d ++ trendInsights d ++ seasonalityInsights d).length ≤ 3 := by
      have h1 := extremesInsights_length d
      have h2 := trendInsights_length d
      have h3 := seasonalityInsights_length d
      simp only [List.length_append]
      omega
    refine ⟨_, hok, ?_, ?_⟩
    · rw [hsplit]
      rw [List.length_take]
      simp only [List.length_append, List.length_cons]
      omega
    · rw [hsplit, List.take_append_eq_append_take]
      obtain ⟨k, hk⟩ : ∃ k, 5 - (extremesInsights d ++ trendInsights d ++
          seasonalityInsights d).length = k + 1 :=
        ⟨5 - (extremesInsights d ++ trendInsights d ++ seasonalityInsights d).length - 1,
          by omega⟩
      rw [hk, List.take_succ_cons]
      exact ⟨m, List.mem_append.mpr (Or.inr (List.mem_cons_self _ _)), hmiss⟩

/-- Counterexample for C2 as stated: the one-row zero-column dataset `[{}]`
does **not** raise — it returns the single "no missing data" insight. -/
theorem analyzeData_zero_columns_counterexample :
    analyzeData [[]] = .ok [.missingNone 0 1] := rfl

/-- Witness for the amended C2 on the dataset `[{a: 1}]`. -/
theorem analyzeData_error_iff_witness :
    ¬(∃ e, analyzeData [[("a", Value.num 1)]] = .error e) ∧
    ∃ l, analyzeData [[("a", Value.num 1)]] = .ok l ∧ 1 ≤ l.length ∧
      ∃ i ∈ l, i.isMissing = true := by
  have h := analyzeData_error_iff [[("a", Value.num 1)]]
  refine ⟨fun he => ?_, h.2 (by decide)⟩
  exact absurd (h.1.mp he) (by decide)

/-! ### Priority order of the insight categories (C1) -/

/-- The priority rank of an insight's category: extremes 0, trend 1,
seasonality 2, missing-data 3, outliers 4, correlation 5. -/
def Insight.rank : Insight → ℕ
  | .extremes .. => 0
  | .trendUp .. => 1
  | .trendDown .. => 1
  | .trendFluct .. => 1
  | .seasonality .. => 2
  | .missingSome .. => 3
  | .missingNone .. => 3
  | .outliersSome .. => 4
  | .outliersNone => 4
  | .correlationTop .. => 5
  | .correlationNone => 5

lemma extremesInsights_rank (d : Dataset) : ∀ i ∈ extremesInsights d, i.rank = 0 := by
  rcases hm : numericColumnStats d with _ | ⟨p0, rest⟩ <;>
    simp [extremesInsights, hm, Insight.rank]

lemma trendInsights_rank (d : Dataset) : ∀ i ∈ trendInsights d, i.rank = 1 := by
  rcases hm : numericColumnStats d with _ | ⟨⟨c0, s0⟩, rest⟩
  · simp [trendInsights, hm]
  · rcases ht : detectTrends d c0 with _ | r
    · simp [trendInsights, hm, ht]
    · rcases r <;> simp [trendInsights, hm, ht, Insight.rank]

lemma seasonalityInsights_rank (d : Dataset) : ∀ i ∈ seasonalityInsights d, i.rank = 2 := by
  rcases hm : numericColumnStats d with _ | ⟨⟨c0, s0⟩, rest⟩
  · simp [seasonalityInsights, hm]
  · rcases ht : detectSeasonality d c0 with _ | r <;>
      simp [seasonalityInsights, hm, ht, Insight.rank]

lemma missingInsights_rank (d : Dataset) : ∀ i ∈ missingInsights d, i.rank = 3 := by
  simp only [missingInsights]
  split_ifs <;> simp [Insight.rank]

lemma outlierInsights_rank (d : Dataset) : ∀ i ∈ outlierInsights d, i.rank = 4 := by
  simp only [outlierInsights]
  rcases hf : (numericColumnStats d).filter (fun p => p.2.hasOutliers) with _ | ⟨o0, rest⟩
  · rw [hf]
    split_ifs <;> simp [Insight.rank]
  · rw [hf]
    simp [Insight.rank]

lemma correlationInsights_rank (d : Dataset) : ∀ i ∈ correlationInsights d, i.rank = 5 := by
  simp only [correlationInsights]
  rcases hf : findCorrelations d with _ | ⟨p, rest⟩
  · split_ifs <;> simp [Insight.rank]
  · simp [Insight.rank]

/-- Prepending a segment of at most one insight of rank `k` to a
rank-increasing list whose ranks all exceed `k`. -/
lemma pairwise_rank_glue (seg rest : List Insight) (k : ℕ)
    (hlen : seg.length ≤ 1) (hrank : ∀ i ∈ seg, i.rank = k)
    (hrest : List.Pairwise (fun a b => a.rank < b.rank) rest)
    (hlb : ∀ i ∈ rest, k < i.rank) :
    List.Pairwise (fun a b => a.rank < b.rank) (seg ++ rest) ∧
      ∀ i ∈ seg ++ rest, k ≤ i.rank := by
  rcases seg with _ | ⟨x, ⟨_ | _⟩⟩
  · exact ⟨hrest, fun i hi => le_of_lt (hlb i hi)⟩
  · rw [List.singleton_append]
    constructor
    · rw [List.pairwise_cons]
      refine ⟨fun b hb => ?_, hrest⟩
      rw [hrank x (List.mem_cons_self _ _)]
      exact hlb b hb
    · intro i hi
      rcases List.mem_cons.mp hi with rfl | hi
      · rw [hrank i (List.mem_cons_self _ _)]
      · exact le_of_lt (hlb i hi)
  · simp at hlen

lemma allInsights_pairwise (d : Dataset) :
    List.Pairwise (fun a b => Insight.rank a < Insight.rank b) (allInsights d) := by
  have g5 := pairwise_rank_glue (correlationInsights d) [] 5
    (correlationInsights_length d) (correlationInsights_rank d)
    (List.Pairwise.nil) (by simp)
  rw [List.append_nil] at g5
  have g4 := pairwise_rank_glue (outlierInsights d) (correlationInsights d) 4
    (outlierInsights_length d) (outlierInsights_rank d) g5.1
    (fun i hi => lt_of_lt_of_le (by norm_num) (g5.2 i hi))
  have g3 := pairwise_rank_glue (missingInsights d)
    (outlierInsights d ++ correlationInsights d) 3
    (le_of_eq (missingInsights_length d)) (missingInsights_rank d) g4.1
    (fun i hi => lt_of_lt_of_le (by norm_num) (g4.2 i hi))
  have g2 := pairwise_rank_glue (seasonalityInsights d)
    (missingInsights d ++ (outlierInsights d ++ correlationInsights d)) 2
    (seasonalityInsights_length d) (seasonalityInsights_rank d) g3.1
    (fun i hi => lt_of_lt_of_le (by norm_num) (g3.2 i hi))
  have g1 := pairwise_rank_glue (trendInsights d)
    (seasonalityInsights d ++ (missingInsights d ++
      (outlierInsights d ++ correlationInsights d))) 1
    (trendInsights_length d) (trendInsights_rank d) g2.1
    (fun i hi => lt_of_lt_of_le (by norm_num) (g2.2 i hi))
  have g0 := pairwise_rank_glue (extremesInsights d)
    (trendInsights d ++ (seasonalityInsights d ++ (missingInsights d ++
      (outlierInsights d ++ correlationInsights d)))) 0
    (extremesInsights_length d) (extremesInsights_rank d) g1.1
    (fun i hi => lt_of_lt_of_le (by norm_num) (g1.2 i hi))
  have heq : allInsights d =
      extremesInsights d ++ (trendInsights d ++ (seasonalityInsights d ++
        (missingInsights d ++ (outlierInsights d ++ correlationInsights d)))) := by
    simp [allInsights, List.append_assoc]
  rw [heq]
  exact g0.1

/-- **C1.** On every non-empty dataset `analyzeData` returns exactly the
first 5 insights of the generation sequence — extremes, trend, seasonality,
missing-data, outliers, correlation, each step contributing the stated
number of insights (trend and seasonality together up to 2, missing-data
exactly 1) — so the result has at most 5 insights, their categories appear
in strictly increasing priority order, and later categories are dropped
once the cap is hit. -/
theorem analyzeData_priority_order (d : Dataset) (h : d ≠ []) :
    analyzeData d = .ok ((allInsights d).take 5) ∧
    (∀ l, analyzeData d = .ok l → l.length ≤ 5 ∧
      List.Pairwise (fun a b => a.rank < b.rank) l) ∧
    (extremesInsights d).length ≤ 1 ∧ (trendInsights d).length ≤ 1 ∧
    (seasonalityInsights d).length ≤ 1 ∧ (missingInsights d).length = 1 ∧
    (outlierInsights d).length ≤ 1 ∧ (correlationInsights d).length ≤ 1 := by
  have hne' : ¬(d.isEmpty = true) := by
    rw [List.isEmpty_iff]
    exact h
  have hok : analyzeData d = .ok ((allInsights d).take 5) := by
    simp only [analyzeData, if_neg hne']
  refine ⟨hok, fun l hl => ?_, extremesInsights_length d, trendInsights_length d,
    seasonalityInsights_length d, missingInsights_length d, outlierInsights_length d,
    correlationInsights_length d⟩
  rw [hok] at hl
  obtain rfl : (allInsights d).take 5 = l := by
    cases hl
    rfl
  constructor
  · rw [List.length_take]
    omega
  · exact (allInsights_pairwise d).sublist (List.take_sublist 5 _)

/-- Witness for C1 on the dataset `[{a: 1}]`. -/
theorem analyzeData_priority_order_witness :
    ∃ l, analyzeData [[("a", Value.num 1)]] = .ok l ∧ l.length ≤ 5 ∧
      List.Pairwise (fun a b => a.rank < b.rank) l := by
  have h := analyzeData_priority_order [[("a", Value.num 1)]] (by decide)
  exact ⟨_, h.1, (h.2.1 _ h.1).1, (h.2.1 _ h.1).2⟩

/-! ### Quartile ordering (C7) -/

lemma sorted_getD_mono {l : List ℚ} (hs : List.Sorted (· ≤ ·) l) {i j : ℕ}
    (hij : i ≤ j) (hj : j < l.length) : l.getD i 0 ≤ l.getD j 0 := by
  have hi : i < l.length := lt_of_le_of_lt hij hj
  rw [List.getD_eq_getElem?_getD, List.getD_eq_getElem?_getD,
    List.getElem?_eq_getElem hi, List.getElem?_eq_getElem hj]
  simp only [Option.getD_some]
  have hr := hs.rel_get_of_le (a := ⟨i, hi⟩) (b := ⟨j, hj⟩) hij
  simpa [List.get_eq_getElem] using hr

/-- **C7.** For every dataset and column with at least one parsed numeric
value, the statistics satisfy `min ≤ q1 ≤ median ≤ q3 ≤ max` (quartiles by
index-based selection `floor(n*0.25)`, `floor(n*0.75)` on the
ascending-sorted values; median from the middle element or the mean of the
two middle elements). -/
theorem calculateStats_quartiles_ordered (d : Dataset) (key : String)
    (h : numericValuesOf d key ≠ []) :
    ∃ s, calculateStats d key = some s ∧
      s.min ≤ s.q1 ∧ s.q1 ≤ s.median ∧ s.median ≤ s.q3 ∧ s.q3 ≤ s.max := by
  have hne : ¬((numericValuesOf d key).isEmpty = true) := by
    rw [List.isEmpty_iff]
    exact h
  simp only [calculateStats, if_neg hne]
  refine ⟨_, rfl, ?_⟩
  set l := (numericValuesOf d key).insertionSort (· ≤ ·) with hl
  have hs : List.Sorted (· ≤ ·) l := List.sorted_insertionSort _ _
  have hn : 1 ≤ l.length := by
    rw [hl, List.length_insertionSort]
    exact List.length_pos.mpr h
  set n := l.length with hn'
  refine ⟨?_, ?_, ?_, ?_⟩
  · exact sorted_getD_mono hs (by omega) (by omega)
  · by_cases hpar : n % 2 = 0
    · rw [if_pos hpar]
      have h1 : l.getD (n / 4) 0 ≤ l.getD (n / 2 - 1) 0 :=
        sorted_getD_mono hs (by omega) (by omega)
      have h2 : l.getD (n / 4) 0 ≤ l.getD (n / 2) 0 :=
        sorted_getD_mono hs (by omega) (by omega)
      linarith
    · rw [if_neg hpar]
      exact sorted_getD_mono hs (by omega) (by omega)
  · by_cases hpar : n % 2 = 0
    · rw [if_pos hpar]
      have h1 : l.getD (n / 2 - 1) 0 ≤ l.getD (n * 3 / 4) 0 :=
        sorted_getD_mono hs (by omega) (by omega)
      have h2 : l.getD (n / 2) 0 ≤ l.getD (n * 3 / 4) 0 :=
        sorted_getD_mono hs (by omega) (by omega)
      linarith
    · rw [if_neg hpar]
      exact sorted_getD_mono hs (by omega) (by omega)
  · exact sorted_getD_mono hs (by omega) (by omega)

/-- Witness for C7 on the scenario dataset's `x` column. -/
theorem calculateStats_quartiles_ordered_witness :
    ∃ s, calculateStats D6w "x" = some s ∧
      s.min ≤ s.q1 ∧ s.q1 ≤ s.median ∧ s.median ≤ s.q3 ∧ s.q3 ≤ s.max :=
  calculateStats_quartiles_ordered D6w "x" (by decide)

/-! ### Mode characterization (C9) -/

/-- Invariant of the mode-finding loop over a sorted list: `freq` holds the
counts of the processed front, `maxFreq` bounds them, and `mode` is the
least value of the front attaining `maxFreq`; the loop's result is then the
least value of the whole list attaining the maximal count. -/
lemma modeScanGo_spec (rest : List ℚ) :
    ∀ (processed : List ℚ) (freq : ℚ → ℕ) (maxFreq : ℕ) (mode : Option ℚ),
    List.Sorted (· ≤ ·) (processed ++ rest) →
    (∀ x, freq x = processed.count x) →
    (∀ x, processed.count x ≤ maxFreq) →
    ((mode = none ∧ maxFreq = 0) ∨
      (∃ m, mode = some m ∧ processed.count m = maxFreq ∧
        ∀ x, processed.count x = maxFreq → m ≤ x)) →
    ((modeScanGo rest freq maxFreq mode = none ∧ processed ++ rest = []) ∨
      (∃ m, modeScanGo rest freq maxFreq mode = some m ∧
        (∀ x, (processed ++ rest).count x ≤ (processed ++ rest).count m) ∧
        (∀ x, (processed ++ rest).count x = (processed ++ rest).count m → m ≤ x))) := by
  induction rest with
  | nil =>
    intro processed freq maxFreq mode _ _ hub hmode
    simp only [List.append_nil]
    rcases hmode with ⟨rfl, hmf⟩ | ⟨m, rfl, hcm, hmin⟩
    · refine Or.inl ⟨rfl, ?_⟩
      by_contra hne
      obtain ⟨y, hy⟩ := List.exists_mem_of_ne_nil processed hne
      have h1 : 0 < processed.count y := List.count_pos_iff.mpr hy
      have h2 := hub y
      omega
    · refine Or.inr ⟨m, rfl, fun x => ?_, fun x hx => ?_⟩
      · rw [hcm]
        exact hub x
      · exact hmin x (by rw [hx, hcm])
  | cons v rest' ih =>
    intro processed freq maxFreq mode hsort hfreq hub hmode
    have hassoc : processed ++ v :: rest' = (processed ++ [v]) ++ rest' := by
      rw [List.append_assoc, List.singleton_append]
    have hsort' : List.Sorted (· ≤ ·) ((processed ++ [v]) ++ rest') := by
      rw [← hassoc]
      exact hsort
    have hle : ∀ y ∈ processed, y ≤ v := by
      intro y hy
      have h3 := (List.pairwise_append.mp hsort).2.2
      exact h3 y hy v (List.mem_cons_self _ _)
    have hcount : ∀ x : ℚ, (processed ++ [v]).count x =
        (if x = v then processed.count x + 1 else processed.count x) := by
      intro x
      by_cases hx : x = v
      · subst hx
        simp [List.count_append]
      · simp [List.count_append, List.count_singleton, hx, Ne.symm hx]
    have hgeq : ∀ x, (fun x => if x = v then freq v + 1 else freq x) x =
        (processed ++ [v]).count x := by
      intro x
      rw [hcount x]
      by_cases hx : x = v
      · subst hx
        simp [hfreq]
      · simp [hx, hfreq x]
    simp only [modeScanGo]
    by_cases hbr : maxFreq < freq v + 1
    · rw [if_pos hbr]
      have hub' : ∀ x, (processed ++ [v]).count x ≤ freq v + 1 := by
        intro x
        rw [hcount x]
        by_cases hx : x = v
        · subst hx
          rw [if_pos rfl]
          have := hfreq x
          omega
        · rw [if_neg hx]
          have := hub x
          omega
      have hres := ih (processed ++ [v]) (fun x => if x = v then freq v + 1 else freq x)
        (freq v + 1) (some v) hsort' hgeq hub'
        (Or.inr ⟨v, rfl, by rw [hcount v, if_pos rfl, hfreq v], fun x hx => by
          by_cases hxv : x = v
          · exact le_of_eq hxv.symm
          · exfalso
            rw [hcount x, if_neg hxv] at hx
            have := hub x
            omega⟩)
      rw [← hassoc] at hres
      exact hres
    · rw [if_neg hbr]
      have hble : freq v + 1 ≤ maxFreq := by omega
      rcases hmode with ⟨rfl, hmf⟩ | ⟨m, rfl, hcm, hmin⟩
      · exfalso
        omega
      · have hmv : m ≠ v := by
          intro hvm
          rw [hvm] at hcm
          have := hfreq v
          omega
        have hub' : ∀ x, (processed ++ [v]).count x ≤ maxFreq := by
          intro x
          rw [hcount x]
          by_cases hx : x = v
          · subst hx
            rw [if_pos rfl]
            have := hfreq x
            omega
          · rw [if_neg hx]
            exact hub x
        have hres := ih (processed ++ [v]) (fun x => if x = v then freq v + 1 else freq x)
          maxFreq (some m) hsort' hgeq hub'
          (Or.inr ⟨m, rfl, by rw [hcount m, if_neg hmv]; exact hcm, fun x hx => by
            by_cases hxv : x = v
            · subst hxv
              have hmem : m ∈ processed := by
                apply List.count_pos_iff.mp
                have := hfreq x
                omega
              exact hle m hmem
            · rw [hcount x, if_neg hxv] at hx
              exact hmin x hx⟩)
        rw [← hassoc] at hres
        exact hres

lemma modeScan_spec (l : List ℚ) (hs : List.Sorted (· ≤ ·) l) (hne : l ≠ []) :
    ∃ m, modeScan l = some m ∧ (∀ x, l.count x ≤ l.count m) ∧
      (∀ x, l.count x = l.count m → m ≤ x) := by
  have h := modeScanGo_spec l [] (fun _ => 0) 0 none (by simpa) (by simp) (by simp)
    (Or.inl ⟨rfl, rfl⟩)
  rw [List.nil_append] at h
  rcases h with ⟨_, h2⟩ | ⟨m, hm, hmax, hmin⟩
  · exact absurd h2 hne
  · exact ⟨m, hm, hmax, hmin⟩

/-- **C9.** For every column with at least one parsed numeric value, the
`mode` computed by `calculateStats` is the smallest value attaining the
maximum frequency (equivalently, the first value to reach the maximum
frequency in the left-to-right scan of the ascending-sorted sequence; ties
go to the lowest value). -/
theorem calculateStats_mode_least_most_frequent (d : Dataset) (key : String)
    (h : numericValuesOf d key ≠ []) :
    ∃ s m, calculateStats d key = some s ∧ s.mode = some m ∧
      m ∈ numericValuesOf d key ∧
      (∀ x, (numericValuesOf d key).count x ≤ (numericValuesOf d key).count m) ∧
      (∀ x, (numericValuesOf d key).count x = (numericValuesOf d key).count m →
        m ≤ x) := by
  have hne : ¬((numericValuesOf d key).isEmpty = true) := by
    rw [List.isEmpty_iff]
    exact h
  simp only [calculateStats, if_neg hne]
  set l := (numericValuesOf d key).insertionSort (· ≤ ·) with hl
  have hperm : l.Perm (numericValuesOf d key) := List.perm_insertionSort _ _
  have hs : List.Sorted (· ≤ ·) l := List.sorted_insertionSort _ _
  have hlne : l ≠ [] := by
    intro h0
    apply h
    have := hperm.length_eq
    rw [h0] at this
    exact List.length_eq_zero.mp this.symm
  obtain ⟨m, hm, hmax, hmin⟩ := modeScan_spec l hs hlne
  refine ⟨_, m, rfl, hm, ?_, ?_, ?_⟩
  · have hmem : m ∈ l := by
      obtain ⟨y, hy⟩ := List.exists_mem_of_ne_nil l hlne
      have h1 : 0 < l.count y := List.count_pos_iff.mpr hy
      have h2 := hmax y
      exact List.count_pos_iff.mp (by omega)
    exact (hperm.mem_iff).mp hmem
  · intro x
    rw [← hperm.count_eq, ← hperm.count_eq]
    exact hmax x
  · intro x hx
    rw [← hperm.count_eq, ← hperm.count_eq] at hx
    exact hmin x hx

/-- Witness for C9: on the column `[2, 1, 2, 1, 1]` the mode is the most
frequent value `1`. -/
theorem calculateStats_mode_witness :
    ∃ s m, calculateStats [[("a", Value.num 2)], [("a", .num 1)], [("a", .num 2)],
        [("a", .num 1)], [("a", .num 1)]] "a" = some s ∧ s.mode = some m ∧
      m ∈ numericValuesOf [[("a", Value.num 2)], [("a", .num 1)], [("a", .num 2)],
        [("a", .num 1)], [("a", .num 1)]] "a" ∧
      (∀ x, (numericValuesOf [[("a", Value.num 2)], [("a", .num 1)], [("a", .num 2)],
        [("a", .num 1)], [("a", .num 1)]] "a").count x ≤
        (numericValuesOf [[("a", Value.num 2)], [("a", .num 1)], [("a", .num 2)],
          [("a", .num 1)], [("a", .num 1)]] "a").count m) ∧
      (∀ x, (numericValuesOf [[("a", Value.num 2)], [("a", .num 1)], [("a", .num 2)],
        [("a", .num 1)], [("a", .num 1)]] "a").count x =
        (numericValuesOf [[("a", Value.num 2)], [("a", .num 1)], [("a", .num 2)],
          [("a", .num 1)], [("a", .num 1)]] "a").count m → m ≤ x) :=
  calculateStats_mode_least_most_frequent _ "a" (by decide)

/-! ### The Pearson coefficient (C3, C8) -/

/-- Cauchy–Schwarz for list sums. -/
lemma list_cauchy_schwarz (l : List (ℚ × ℚ)) :
    ((l.map fun p => p.1 * p.2).sum) ^ 2 ≤
      (l.map fun p => (p.1 ^ 2 : ℚ)).sum * (l.map fun p => (p.2 ^ 2 : ℚ)).sum := by
  induction l with
  | nil => simp
  | cons a t ih =>
    have hX : 0 ≤ (t.map fun p => (p.1 ^ 2 : ℚ)).sum := by
      apply List.sum_nonneg
      intro x hx
      obtain ⟨p, _, rfl⟩ := List.mem_map.mp hx
      positivity
    have hY : 0 ≤ (t.map fun p => (p.2 ^ 2 : ℚ)).sum := by
      apply List.sum_nonneg
      intro x hx
      obtain ⟨p, _, rfl⟩ := List.mem_map.mp hx
      positivity
    simp only [List.map_cons, List.sum_cons]
    set S := (t.map fun p => p.1 * p.2).sum with hSdef
    set X := (t.map fun p => (p.1 ^ 2 : ℚ)).sum with hXdef
    set Y := (t.map fun p => (p.2 ^ 2 : ℚ)).sum with hYdef
    rcases eq_or_lt_of_le hY with hY0 | hY0
    · have hS2 : S ^ 2 ≤ 0 := by
        rw [← hY0] at ih
        simpa using ih
      have hS0 : S = 0 := by nlinarith [sq_nonneg S]
      rw [hS0, ← hY0]
      nlinarith [mul_nonneg hX (sq_nonneg a.2)]
    · nlinarith [sq_nonneg (a.1 * Y - a.2 * S),
        mul_nonneg (by positivity : (0 : ℚ) ≤ a.2 ^ 2 + Y) (sub_nonneg.mpr ih), hY0, hX, hY]

lemma corrSums_denoms_nonneg (data : Dataset) (c1 c2 : String) :
    0 ≤ (corrSums data c1 c2).2.1 ∧ 0 ≤ (corrSums data c1 c2).2.2 := by
  simp only [corrSums]
  constructor <;>
  · apply List.sum_nonneg
    intro x hx
    obtain ⟨p, _, rfl⟩ := List.mem_map.mp hx
    positivity

lemma corrSums_sq_le (data : Dataset) (c1 c2 : String) :
    (corrSums data c1 c2).1 ^ 2 ≤ (corrSums data c1 c2).2.1 * (corrSums data c1 c2).2.2 := by
  have h := list_cauchy_schwarz
    (((numericValuesOf data c1).zip (numericValuesOf data c2)).map fun p =>
      (p.1 - (numericValuesOf data c1).sum / ((numericValuesOf data c1).length : ℚ),
       p.2 - (numericValuesOf data c2).sum / ((numericValuesOf data c1).length : ℚ)))
  simp only [corrSums]
  simpa [List.map_map, Function.comp] using h

/-- **C8** part: the coefficient lies in `[-1, 1]` (a `0/0`, JavaScript's
`NaN`, denotes `0` here). -/
lemma corrCoefficient_abs_le_one (data : Dataset) (c1 c2 : String) :
    |corrCoefficient data c1 c2| ≤ 1 := by
  obtain ⟨hD1, hD2⟩ := corrSums_denoms_nonneg data c1 c2
  have hcs := corrSums_sq_le data c1 c2
  simp only [corrCoefficient]
  set N := (corrSums data c1 c2).1 with hN
  set D1 := (corrSums data c1 c2).2.1 with hD1'
  set D2 := (corrSums data c1 c2).2.2 with hD2'
  have hD1R : (0 : ℝ) ≤ (D1 : ℝ) := by exact_mod_cast hD1
  have hcsR : ((N : ℝ)) ^ 2 ≤ (D1 : ℝ) * (D2 : ℝ) := by exact_mod_cast hcs
  by_cases hzero : Real.sqrt (D1 : ℝ) * Real.sqrt (D2 : ℝ) = 0
  · rw [hzero, div_zero]
    norm_num
  · have hpos : 0 < Real.sqrt (D1 : ℝ) * Real.sqrt (D2 : ℝ) :=
      lt_of_le_of_ne (mul_nonneg (Real.sqrt_nonneg _) (Real.sqrt_nonneg _)) (Ne.symm hzero)
    rw [abs_div, abs_of_pos hpos, div_le_one hpos, ← Real.sqrt_sq_eq_abs]
    calc Real.sqrt ((N : ℝ) ^ 2) ≤ Real.sqrt ((D1 : ℝ) * (D2 : ℝ)) := Real.sqrt_le_sqrt hcsR
      _ = Real.sqrt (D1 : ℝ) * Real.sqrt (D2 : ℝ) := Real.sqrt_mul hD1R _

lemma corrSums_swap (data : Dataset) (c1 c2 : String)
    (hlen : (numericValuesOf data c1).length = (numericValuesOf data c2).length) :
    corrSums data c2 c1 =
      ((corrSums data c1 c2).1, (corrSums data c1 c2).2.2, (corrSums data c1 c2).2.1) := by
  simp only [corrSums]
  rw [← List.zip_swap (numericValuesOf data c1) (numericValuesOf data c2)]
  rw [hlen]
  simp only [List.map_map]
  refine Prod.ext ?_ (Prod.ext ?_ ?_)
  · simp only []
    apply congrArg List.sum
    apply List.map_congr_left
    intro p _
    simp [Function.comp, mul_comm]
  · simp only []
    apply congrArg List.sum
    apply List.map_congr_left
    intro p _
    simp [Function.comp]
  · simp only []
    apply congrArg List.sum
    apply List.map_congr_left
    intro p _
    simp [Function.comp]

/-- **C8** part: symmetry under swapping the two columns, in the
equal-length regime in which `findCorrelations` computes the coefficient. -/
lemma corrCoefficient_symm (data : Dataset) (c1 c2 : String)
    (hlen : (numericValuesOf data c1).length = (numericValuesOf data c2).length) :
    corrCoefficient data c1 c2 = corrCoefficient data c2 c1 := by
  simp only [corrCoefficient]
  rw [corrSums_swap data c1 c2 hlen]
  rw [mul_comm]

/-- Anatomy of a kept `CorrelationPair`: it comes from an `i < j` pair of
candidate columns whose filtered sequences have equal length `> 1`, its
coefficient is the Pearson coefficient of those columns, and it passed the
`|r| > 0.5` filter. -/
lemma mem_findCorrelations (data : Dataset) (p : CorrPair)
    (hp : p ∈ findCorrelations data) :
    (p.col1, p.col2) ∈ columnPairs (corrNumericColumns data) ∧
    (numericValuesOf data p.col1).length = (numericValuesOf data p.col2).length ∧
    1 < (numericValuesOf data p.col1).length ∧
    p.coefficient = corrCoefficient data p.col1 p.col2 ∧
    1 / 2 < |p.coefficient| := by
  simp only [findCorrelations] at hp
  have hp' := (List.perm_insertionSort _ _).mem_iff.mp hp
  rw [List.mem_filterMap] at hp'
  obtain ⟨pc, hpc, hf⟩ := hp'
  split_ifs at hf with h1 h2
  obtain rfl := Option.some_inj.mp hf
  exact ⟨hpc, h1.1, h1.2, rfl, h2⟩

/-- A 3-row dataset: column `a` is numeric at rows 0, 1 and column `b` at
rows 1, 2 — different missing patterns, but both filtered sequences have
length 2. -/
def D3c : Dataset :=
  [[("a", .num 1), ("b", .str "x")],
   [("a", .num 2), ("b", .num 3)],
   [("a", .str "x"), ("b", .num 4)]]

lemma findCorrelations_D3c : findCorrelations D3c = [⟨"a", "b", 1⟩] := by
  have hva : numericValuesOf D3c "a" = [1, 2] := by decide
  have hvb : numericValuesOf D3c "b" = [3, 4] := by decide
  have hsums : corrSums D3c "a" "b" = (1 / 2, 1 / 2, 1 / 2) := by
    simp only [corrSums, hva, hvb]
    norm_num [List.zip]
  have hco : corrCoefficient D3c "a" "b" = 1 := by
    simp only [corrCoefficient, hsums]
    push_cast
    rw [Real.mul_self_sqrt (by norm_num : (0 : ℝ) ≤ 1 / 2)]
    norm_num
  have hnc : corrNumericColumns D3c = ["a", "b"] := by decide
  simp only [findCorrelations, hnc]
  rw [show columnPairs ["a", "b"] = [("a", "b")] from rfl]
  simp only [List.filterMap_cons, List.filterMap_nil, hva, hvb, hco]
  norm_num

/-- **C3 (amended).** A pair of candidate numeric columns yields a
`CorrelationPair` only when the two filtered numeric sequences have **equal
length** `> 1` — regardless of whether the columns are numeric at the same
rows — with values paired by position in the filtered sequences; a pair
whose filtered sequences have different lengths is skipped entirely. -/
theorem findCorrelations_only_equal_length (data : Dataset) (p : CorrPair)
    (hp : p ∈ findCorrelations data) :
    (p.col1, p.col2) ∈ columnPairs (corrNumericColumns data) ∧
    (numericValuesOf data p.col1).length = (numericValuesOf data p.col2).length ∧
    1 < (numericValuesOf data p.col1).length ∧
    p.coefficient = corrCoefficient data p.col1 p.col2 := by
  have h := mem_findCorrelations data p hp
  exact ⟨h.1, h.2.1, h.2.2.1, h.2.2.2.1⟩

/-- Counterexample for C3 as stated: on `D3c` the pair `(a, b)` **is** kept
although `a` and `b` are not numeric at the same rows (at row 0, `a` parses
and `b` does not), because only the filtered lengths are compared. -/
theorem findCorrelations_row_parity_counterexample :
    findCorrelations D3c = [⟨"a", "b", 1⟩] ∧
    (parseNum (getCell (D3c.headD []) "a")).isSome = true ∧
    parseNum (getCell (D3c.headD []) "b") = none :=
  ⟨findCorrelations_D3c, by decide, by decide⟩

/-- Witness for the amended C3 at the kept pair of `D3c`. -/
theorem findCorrelations_only_equal_length_witness :
    ("a", "b") ∈ columnPairs (corrNumericColumns D3c) ∧
    (numericValuesOf D3c "a").length = (numericValuesOf D3c "b").length ∧
    1 < (numericValuesOf D3c "a").length := by
  have h := findCorrelations_only_equal_length D3c ⟨"a", "b", 1⟩
    (by rw [findCorrelations_D3c]; exact List.mem_singleton_self _)
  exact ⟨h.1, h.2.1, h.2.2.1⟩

/-- **C8.** The Pearson coefficient is symmetric under swapping the two
columns (in the equal-length regime in which `findCorrelations` computes
it), always lies in `[-1, 1]` in the real-valued model (a JavaScript `NaN`
denotes `0` here), and every kept `CorrelationPair` has
`0.5 < |coefficient| ≤ 1`. -/
theorem pearson_symmetric_bounded (d : Dataset) (c1 c2 : String) :
    ((numericValuesOf d c1).length = (numericValuesOf d c2).length →
      corrCoefficient d c1 c2 = corrCoefficient d c2 c1) ∧
    |corrCoefficient d c1 c2| ≤ 1 ∧
    ∀ p, p ∈ findCorrelations d → 1 / 2 < |p.coefficient| ∧ |p.coefficient| ≤ 1 := by
  refine ⟨fun hlen => corrCoefficient_symm d c1 c2 hlen,
    corrCoefficient_abs_le_one d c1 c2, fun p hp => ?_⟩
  have h := mem_findCorrelations d p hp
  refine ⟨h.2.2.2.2, ?_⟩
  rw [h.2.2.2.1]
  exact corrCoefficient_abs_le_one d p.col1 p.col2

/-- The spec's perfectly correlated two-row dataset `[{x:1,y:2},{x:2,y:4}]`. -/
def D8w : Dataset :=
  [[("x", .num 1), ("y", .num 2)],
   [("x", .num 2), ("y", .num 4)]]

lemma findCorrelations_D8w : findCorrelations D8w = [⟨"x", "y", 1⟩] := by
  have hvx : numericValuesOf D8w "x" = [1, 2] := by decide
  have hvy : numericValuesOf D8w "y" = [2, 4] := by decide
  have hsums : corrSums D8w "x" "y" = (1, 1 / 2, 2) := by
    simp only [corrSums, hvx, hvy]
    norm_num [List.zip]
  have hco : corrCoefficient D8w "x" "y" = 1 := by
    simp only [corrCoefficient, hsums]
    push_cast
    rw [← Real.sqrt_mul (by norm_num : (0 : ℝ) ≤ 1 / 2)]
    norm_num [Real.sqrt_one]
  have hnc : corrNumericColumns D8w = ["x", "y"] := by decide
  simp only [findCorrelations, hnc]
  rw [show columnPairs ["x", "y"] = [("x", "y")] from rfl]
  simp only [List.filterMap_cons, List.filterMap_nil, hvx, hvy, hco]
  norm_num

/-- Witness for C8 on `D8w`, whose kept pair has coefficient exactly 1. -/
theorem pearson_symmetric_bounded_witness :
    corrCoefficient D8w "x" "y" = corrCoefficient D8w "y" "x" ∧
    (1 / 2 < |(⟨"x", "y", (1 : ℝ)⟩ : CorrPair).coefficient| ∧
      |(⟨"x", "y", (1 : ℝ)⟩ : CorrPair).coefficient| ≤ 1) := by
  have h := pearson_symmetric_bounded D8w "x" "y"
  exact ⟨h.1 (by decide),
    h.2.2 ⟨"x", "y", 1⟩ (by rw [findCorrelations_D8w]; exact List.mem_singleton_self _)⟩

end DataLense
